import Mathlib

set_option maxHeartbeats 1000000

/-!
Verification development for the bctop container dashboard core.

The definitions below are a shallow embedding of the Rust sources:
`src/app/actions.rs`, `src/app/state.rs`, `src/app/mod.rs`,
`src/container_management/mod.rs` and `src/container_management/docker.rs`.
Machine integers (u64) are modelled as `Nat` with explicit wrapping where the
source performs unchecked subtraction; `f32` arithmetic is modelled by exact
rationals (sign and zero tests agree with `f32` at the magnitudes involved);
Rust string operations are modelled by structurally recursive functions over
the character list of a `String`.
-/

namespace Bctop

/-- Abbreviation for `Char` usable inside the `Key` namespace, where the bare
name would resolve to the `Key.Char` constructor. -/
abbrev CharT := Char

/-- Modelled from the spec: the logical key events decoded by the (excluded)
input layer in `src/inputs/key.rs`, which is not part of the provided sources.
The constructors are exactly those used by the action key tables in
`src/app/actions.rs`. -/
inductive Key where
  | Char (c : Char)
  | Ctrl (c : Char)
  | Enter
  | Esc
  | Up
  | Down
  | Left
  | Right
  | Backspace
  deriving DecidableEq

/-- Modelled from the spec: `Key::get_char` of the missing `src/inputs/key.rs`.
A character key yields its character, every other key yields none; the spec
relies on this in "typed characters while in search-input mode append to the
needle" and for the exec command buffer capture. -/
def Key.get_char : Key → Option CharT
  | .Char c => some c
  | _ => none

/-- The `Action` enum of `src/app/actions.rs`. -/
inductive Action where
  | Quit
  | ShowLogs
  | ExecCommands
  | SendCMD
  | Next
  | Previous
  | ScrollUp
  | ScrollDown
  | Search
  | Remove
  | StopContainer
  | PauseContainer
  deriving DecidableEq

/-- Rust `Action::iterator` of `src/app/actions.rs`: all actions in declaration
order. -/
def Action.iterator : List Action :=
  [.Quit, .ShowLogs, .ExecCommands, .SendCMD, .Next, .Previous,
   .ScrollUp, .ScrollDown, .Search, .Remove, .StopContainer, .PauseContainer]

/-- Rust `Action::keys` of `src/app/actions.rs`: the trigger keys of each action. -/
def Action.keys : Action → List Key
  | .Quit => [.Char 'q', .Ctrl 'c', .Esc]
  | .ShowLogs => [.Char 'l', .Enter]
  | .ExecCommands => [.Char 'e']
  | .SendCMD => [.Enter]
  | .Next => [.Down, .Char 'n', .Right]
  | .Previous => [.Up, .Char 'p', .Left]
  | .Search => [.Char '/', .Enter]
  | .ScrollUp => [.Up]
  | .ScrollDown => [.Down]
  | .Remove => [.Backspace]
  | .StopContainer => [.Char 's']
  | .PauseContainer => [.Char 'p']

/-- The per-key entry built by `Actions::from` of `src/app/actions.rs`: the
actions of the input list (by occurrence, in input order) whose key list
contains `k`; this is the list the conflict check inspects for each key. -/
def collidingActions (actions : List Action) (k : Key) : List Action :=
  actions.filter (fun a => decide (k ∈ a.keys))

/-- The conflict listing computed by `Actions::from`: every key occurring in
some action of the list that is claimed by at least two action occurrences,
paired with those actions.  The source accumulates the same data in a hash
map; since the failure message is queried only for which keys and actions it
names, the entries are kept here in first-occurrence key order. -/
def conflictListing (actions : List Action) : List (Key × List Action) :=
  ((actions.map Action.keys).flatten.dedup).filterMap (fun k =>
    let cs := collidingActions actions k
    if 2 ≤ cs.length then some (k, cs) else none)

/-- Rust `Actions::from` of `src/app/actions.rs` (`from` is a Lean keyword, hence
`fromList`): fails fatally (modelled as `Except.error` carrying the conflict
listing rendered into the message) when some key is claimed by two action
occurrences, and otherwise yields the registry holding the actions in input
order. -/
def Actions.fromList (actions : List Action) :
    Except (List (Key × List Action)) (List Action) :=
  if conflictListing actions = [] then .ok actions
  else .error (conflictListing actions)

/-- Rust `Actions::find` of `src/app/actions.rs`: the first action in global
declaration order that is registered and whose key list contains `k`. -/
def Actions.find (registry : List Action) (k : Key) : Option Action :=
  Action.iterator.find? (fun a =>
    decide (a ∈ registry) && decide (k ∈ a.keys))

/-- The `AppState` enum of `src/app/state.rs`. -/
inductive AppState where
  | Monitoring
  | Logging (container : String)
  | ExecCommand (container : String)
  deriving DecidableEq

def AppState.is_monitoring : AppState → Bool
  | .Monitoring => true
  | _ => false

def AppState.is_logging : AppState → Bool
  | .Logging _ => true
  | _ => false

def AppState.is_exec_command : AppState → Bool
  | .ExecCommand _ => true
  | _ => false

/-- The action vector `AppState::get_actions` of `src/app/state.rs` passes to
`Actions::from` for each state. -/
def AppState.actionsVec (s : AppState) : List Action :=
  if s.is_monitoring then
    [.Quit, .ShowLogs, .ExecCommands, .Next, .Previous, .StopContainer]
  else if s.is_logging then
    [.Quit, .ScrollDown, .ScrollUp, .Search, .Remove]
  else if s.is_exec_command then
    [.Quit, .SendCMD]
  else
    [.Quit]

/-- Rust `AppState::get_actions` of `src/app/state.rs`: the registry built from the
state action vector.  The construction never hits the conflict branch for
these vectors, so the error arm is unreachable. -/
def AppState.get_actions (s : AppState) : List Action :=
  match Actions.fromList s.actionsVec with
  | .ok r => r
  | .error _ => []

/-- The `ContainerStatus` enum of `src/container_management/mod.rs`. -/
inductive ContainerStatus where
  | Created
  | Running
  | Paused
  | Stopped
  | Restarting
  | Removing
  | Exited
  | Dead
  deriving DecidableEq

/-- Rust `impl From<String> for ContainerStatus` of `src/container_management/mod.rs`:
unrecognized daemon status text falls back to `Running`. -/
def ContainerStatus.fromString (s : String) : ContainerStatus :=
  match s with
  | "created" => .Created
  | "running" => .Running
  | "paused" => .Paused
  | "stopped" => .Stopped
  | "restarting" => .Restarting
  | "removing" => .Removing
  | "exited" => .Exited
  | "dead" => .Dead
  | _ => .Running

/-- The `Container` record of `src/container_management/mod.rs`; the `f32`
fields are modelled as exact rationals. -/
structure Container where
  id : String
  status : ContainerStatus
  name : String
  image : String
  cpu_usage : ℚ
  memory_usage_bytes : ℚ
  memory_limit_bytes : ℚ
  swarm_service : Option String
  swarm_stack : Option String
  compose_service : Option String
  compose_project : Option String
  deriving DecidableEq

/-- Wrapping u64 subtraction: Rust release-profile semantics of `a - b` on
`u64` (a debug build aborts on underflow instead of wrapping). -/
def u64Sub (a b : Nat) : Nat :=
  (a % 2 ^ 64 + 2 ^ 64 - b % 2 ^ 64) % 2 ^ 64

/-- The CPU percentage computation of `update_container` in
`src/container_management/docker.rs` lines 98-113.  The container tick delta
uses `checked_sub(..).unwrap_or(0)` (truncated subtraction); the system tick
delta is the plain `u64` subtraction `csu - psu` of the two
`system_cpu_usage.unwrap_or(0)` values, which wraps modulo `2 ^ 64` when
`csu < psu`; the guard then divides only when that wrapped delta is
positive.  The `f32` arithmetic is modelled by exact rationals. -/
def computeCpuUsage (totalUsage preTotalUsage : Nat)
    (systemCpuUsage preSystemCpuUsage onlineCpus : Option Nat) : ℚ :=
  let cpu_container_usage : Nat := totalUsage - preTotalUsage
  let csu : Nat := systemCpuUsage.getD 0
  let psu : Nat := preSystemCpuUsage.getD 0
  let cpu_system_usage : Nat := u64Sub csu psu
  if 0 < cpu_system_usage then
    (cpu_container_usage : ℚ) / (cpu_system_usage : ℚ) * 100
      * ((onlineCpus.getD 1 : Nat) : ℚ)
  else
    0

/-- Rust `str::to_lowercase`, modelled character-wise over the character
list of the string. -/
def strToLower (s : String) : String :=
  ⟨s.data.map Char.toLower⟩

/-- Rust `str::trim`: strip leading and trailing whitespace. -/
def strTrim (s : String) : String :=
  ⟨((s.data.dropWhile Char.isWhitespace).reverse.dropWhile
      Char.isWhitespace).reverse⟩

/-- Rust `String::pop` as used by the `Remove` action: drop the final
character of the search needle. -/
def strPop (s : String) : String :=
  ⟨s.data.dropLast⟩

/-- The needle occurs as the leading block of the haystack; auxiliary to the
substring test. -/
def leadsCL : List Char → List Char → Bool
  | [], _ => true
  | _ :: _, [] => false
  | a :: ns, b :: hs => a == b && leadsCL ns hs

/-- Rust `str::contains` on character lists: the needle occurs as a
contiguous substring of the haystack. -/
def hasSubCL (hay needle : List Char) : Bool :=
  match hay with
  | [] => needle.isEmpty
  | _ :: t => leadsCL needle hay || hasSubCL t needle

/-- The per-line predicate of the `Search` arm in
`App::do_state_logging_actions`:
`line.to_lowercase().contains(&search_text.to_lowercase())`. -/
def lineMatches (search_text line : String) : Bool :=
  hasSubCL (strToLower line).data (strToLower search_text).data

/-- Rust `Iterator::position`: the index of the first element satisfying the
predicate. -/
def positionFrom {α : Type} (pred : α → Bool) : List α → Option Nat
  | [] => none
  | x :: t => if pred x then some 0 else (positionFrom pred t).map (· + 1)

/-- The `AppReturn` enum of `src/app/mod.rs`. -/
inductive AppReturn where
  | Exit
  | Continue
  deriving DecidableEq

/-- The `IoEvent` enum of `src/io/mod.rs`; the exec session object is
represented by its container id (the receiving half of the channel is part of
the I/O layer). -/
inductive IoEvent where
  | StartMonitoring
  | ShowLogs (container : String)
  | StopContainer (container : String)
  | PauseContainer (container : String)
  | StartExecSession (container : String)
  deriving DecidableEq

/-- The `App` struct of `src/app/mod.rs`.  The outbound `io_tx` channel and
the exec channel sender are I/O handles: dispatched events and transmitted
command strings are returned by the handlers instead, and `exec_tx` keeps
only whether the exec channel is present (`Option::is_some` on the source
field). -/
structure App where
  containers : List Container
  actions : List Action
  state : AppState
  selected_container : Option String
  logs : List String
  log_position : Nat
  search : Option String
  exec_tx : Bool
  exec_cmd : String
  last_cmd : Option String
  deriving DecidableEq

/-- Rust `App::new` of `src/app/mod.rs`. -/
def App.new : App :=
  { containers := []
    actions := AppState.Monitoring.get_actions
    state := .Monitoring
    selected_container := none
    logs := []
    log_position := 0
    search := none
    exec_tx := false
    exec_cmd := ""
    last_cmd := none }

/-- The full effect of one handler invocation: the updated application state,
the events dispatched on `io_tx`, the strings transmitted on the exec
channel, and the returned `AppReturn`. -/
structure ActionOut where
  app : App
  events : List IoEvent
  tty : List String
  ret : AppReturn
  deriving DecidableEq

/-- Rust `App::next` of `src/app/mod.rs`. -/
def App.next (app : App) : App :=
  let index : Nat :=
    match app.selected_container with
    | some i =>
      let idx := (positionFrom (fun c => c.id == i) app.containers).getD 0
      if idx + 1 ≥ app.containers.length then idx else idx + 1
    | none => 0
  { app with selected_container := (app.containers[index]?).map Container.id }

/-- Rust `App::previous` of `src/app/mod.rs`. -/
def App.previous (app : App) : App :=
  let index : Nat :=
    match app.selected_container with
    | some i =>
      let idx := (positionFrom (fun c => c.id == i) app.containers).getD 0
      if idx = 0 then idx else idx - 1
    | none => 0
  { app with selected_container := (app.containers[index]?).map Container.id }

/-- Rust `App::do_state_monitoring_actions` of `src/app/mod.rs`. -/
def App.do_state_monitoring_actions (app : App) (action : Action) : ActionOut :=
  match action with
  | .Quit => ⟨app, [], [], .Exit⟩
  | .ShowLogs =>
    match app.selected_container with
    | none => ⟨app, [], [], .Continue⟩
    | some c =>
      ⟨{ app with state := .Logging c,
                  actions := (AppState.Logging c).get_actions },
       [.ShowLogs c], [], .Continue⟩
  | .ExecCommands =>
    match app.selected_container with
    | none => ⟨app, [], [], .Continue⟩
    | some c =>
      ⟨{ app with state := .ExecCommand c,
                  actions := (AppState.ExecCommand c).get_actions,
                  exec_cmd := "",
                  exec_tx := true },
       [.StartExecSession c], [], .Continue⟩
  | .Next => ⟨app.next, [], [], .Continue⟩
  | .Previous => ⟨app.previous, [], [], .Continue⟩
  | .StopContainer =>
    match app.selected_container with
    | none => ⟨app, [], [], .Continue⟩
    | some c => ⟨app, [.StopContainer c], [], .Continue⟩
  | .PauseContainer =>
    match app.selected_container with
    | none => ⟨app, [], [], .Continue⟩
    | some c => ⟨app, [.PauseContainer c], [], .Continue⟩
  | _ => ⟨app, [], [], .Continue⟩

/-- Rust `App::do_state_logging_actions` of `src/app/mod.rs`. -/
def App.do_state_logging_actions (app : App) (action : Action) : ActionOut :=
  match action with
  | .Quit =>
    if app.search.isSome then
      ⟨{ app with search := none }, [], [], .Continue⟩
    else
      ⟨{ app with state := .Monitoring,
                  logs := [],
                  log_position := 0,
                  actions := AppState.Monitoring.get_actions },
       [.StartMonitoring], [], .Continue⟩
  | .ScrollDown =>
    ⟨{ app with log_position :=
        if app.log_position > 0 then app.log_position - 1 else 0 },
     [], [], .Continue⟩
  | .ScrollUp =>
    ⟨{ app with log_position :=
        if app.log_position + 1 < app.logs.length then app.log_position + 1
        else app.log_position },
     [], [], .Continue⟩
  | .Search =>
    match app.search with
    | some search_text =>
      match positionFrom (lineMatches search_text)
          (app.logs.reverse.drop (app.log_position + 1)) with
      | some line =>
        ⟨{ app with log_position := app.log_position + line + 1 },
         [], [], .Continue⟩
      | none => ⟨app, [], [], .Continue⟩
    | none => ⟨{ app with search := some "" }, [], [], .Continue⟩
  | .Remove =>
    match app.search with
    | some search_text =>
      ⟨{ app with search := some (strPop search_text) }, [], [], .Continue⟩
    | none => ⟨app, [], [], .Continue⟩
  | _ => ⟨app, [], [], .Continue⟩

/-- Rust `App::do_state_exec_command_actions` of `src/app/mod.rs`. -/
def App.do_state_exec_command_actions (app : App) (action : Action) :
    ActionOut :=
  match action with
  | .Quit =>
    ⟨{ app with state := .Monitoring,
                actions := AppState.Monitoring.get_actions,
                logs := [],
                log_position := 0 },
     [], if app.exec_tx then ["exit\n"] else [], .Continue⟩
  | .SendCMD =>
    if app.exec_tx then
      let cmd := app.exec_cmd ++ "\n"
      let logs' :=
        match app.logs.getLast? with
        | some last => app.logs.dropLast ++ [last ++ cmd]
        | none => app.logs
      ⟨{ app with logs := logs', last_cmd := some cmd, exec_cmd := "" },
       [], [cmd], .Continue⟩
    else
      ⟨app, [], [], .Continue⟩
  | _ => ⟨app, [], [], .Continue⟩

/-- The action lookup and mode dispatch at the end of `App::do_action` in
`src/app/mod.rs` (inline in the source). -/
def App.findAndDo (app : App) (key : Key) : ActionOut :=
  match Actions.find app.actions key with
  | some action =>
    if app.state.is_monitoring then app.do_state_monitoring_actions action
    else if app.state.is_logging then app.do_state_logging_actions action
    else if app.state.is_exec_command then
      app.do_state_exec_command_actions action
    else ⟨app, [], [], .Continue⟩
  | none => ⟨app, [], [], .Continue⟩

/-- Rust `App::do_action` of `src/app/mod.rs`: an active search captures character
keys into the needle first, then exec mode captures character keys into the
pending command, and only then is the key resolved against the registry. -/
def App.do_action (app : App) (key : Key) : ActionOut :=
  match app.search, key.get_char with
  | some s, some c => ⟨{ app with search := some (s.push c) }, [], [], .Continue⟩
  | _, _ =>
    if app.state.is_exec_command then
      match key.get_char with
      | some c =>
        ⟨{ app with exec_cmd := app.exec_cmd.push c }, [], [], .Continue⟩
      | none => app.findAndDo key
    else app.findAndDo key

/-- Rust `App::add_logs` of `src/app/mod.rs` (the `ContainerManagement` trait
implementation). -/
def App.add_logs (app : App) (logs : List String) : App :=
  { app with
    log_position :=
      if app.log_position ≠ 0 then app.log_position + logs.length
      else app.log_position,
    logs := app.logs ++ logs }

/-- Rust `App::add_tty_output` of `src/app/mod.rs`. -/
def App.add_tty_output (app : App) (output : String) : App :=
  if output = "exit" then
    { app with state := .Monitoring,
               actions := AppState.Monitoring.get_actions,
               logs := [],
               log_position := 0 }
  else if app.state.is_exec_command then
    match app.last_cmd with
    | some cmd =>
      if strTrim output = strTrim cmd then { app with last_cmd := none }
      else { app with logs := app.logs ++ [output] }
    | none => { app with logs := app.logs ++ [output] }
  else
    app

/-- The comparator of `self.containers.sort_by(|a, b| a.name.cmp(&b.name))`. -/
def nameLe (a b : Container) : Bool :=
  decide (a.name ≤ b.name)

/-- Rust `App::update_containers` of `src/app/mod.rs`: the upsert — remove any
entry with the same id, push the new record, and re-sort (stably) by name.
Rust `sort_by` is a stable merge sort, modelled by `List.mergeSort`. -/
def update_containers (containers : List Container) (new_container : Container) :
    List Container :=
  ((containers.filter (fun c => decide (c.id ≠ new_container.id)))
      ++ [new_container]).mergeSort nameLe

/-- Rust `App::remove_container` of `src/app/mod.rs`. -/
def remove_container (containers : List Container) (id : String) :
    List Container :=
  containers.filter (fun c => decide (c.id ≠ id))

/-- One cycle of `start_management_process` in
`src/container_management/docker.rs`, lines 24-67, at the level of its
mutations of the shared container collection: `alive_container_ids` is the id
set remembered from the previous cycle, `container_ids` is the id set of the
full daemon listing of this cycle (the source computes it from the container
summaries before any refresh task runs), `refreshed` holds the records the
per-container refresh tasks produced for listed containers (each record id
comes from a listed summary; a refresh that fails on missing stats skips its
upsert and contributes no record, while its listed id still keeps the entry
from being removed), and `containers` is the shared collection.  Ids absent
from the new listing are removed first; every refreshed record is then
upserted.  The source iterates a hash-set difference for the removals and
joins concurrent refresh tasks for the upserts; both orders are immaterial to
the stated claims and are modelled by left folds. -/
def reconcileCycle (alive_container_ids : List String)
    (container_ids : List String)
    (refreshed : List Container) (containers : List Container) :
    List Container :=
  let containers_to_remove :=
    alive_container_ids.filter (fun i => decide (i ∉ container_ids))
  let after_removals := containers_to_remove.foldl remove_container containers
  refreshed.foldl update_containers after_removals

/-- The `ContainerStateStatusEnum` of the daemon client, as matched by
`stop_container` in `src/container_management/docker.rs`. -/
inductive ContainerStateStatusEnum where
  | EMPTY
  | CREATED
  | RUNNING
  | PAUSED
  | RESTARTING
  | REMOVING
  | EXITED
  | DEAD
  deriving DecidableEq

/-- The daemon client `ContainerState` as used by `stop_container`: only its
optional status field is consulted; its `Default` has no status. -/
structure ContainerState where
  status : Option ContainerStateStatusEnum
  deriving DecidableEq

/-- The daemon client inspect response as used by `stop_container`: only its
optional state field is consulted. -/
structure ContainerInspectResponse where
  state : Option ContainerState
  deriving DecidableEq

/-- The daemon mutation performed by `stop_container`; the warn and error
branches perform none. -/
inductive DockerEffect where
  | stopContainer (t : Nat)
  | removeContainer (force : Bool)
  | noEffect
  deriving DecidableEq

/-- The status extraction of `stop_container`:
`container.state.unwrap_or_default().status.unwrap_or(EMPTY)`. -/
def effectiveStatus (container : ContainerInspectResponse) :
    ContainerStateStatusEnum :=
  ((container.state.getD ⟨none⟩).status).getD .EMPTY

/-- Rust `stop_container` of `src/container_management/docker.rs`, lines 169-210,
as a decision on the inspect result: a running container gets a daemon stop
with a 10 second timeout, an exited or created container is force-removed,
anything else (and an inspect error) is only logged. -/
def stop_container (inspect : Except String ContainerInspectResponse) :
    DockerEffect :=
  match inspect with
  | .ok container =>
    match effectiveStatus container with
    | .RUNNING => .stopContainer 10
    | .EXITED => .removeContainer true
    | .CREATED => .removeContainer true
    | _ => .noEffect
  | .error _ => .noEffect

/-- The line at reverse offset `r` (0 = newest) of the log buffer matches the
search needle `s` case-insensitively. -/
def logMatchesAt (app : App) (s : String) (r : Nat) : Prop :=
  lineMatches s (app.logs.reverse.getD r "") = true

/-- A container record with the given id and name; the remaining fields take
fixed harmless values (used to instantiate the reconciliation theorem). -/
def mkC (i n : String) : Container :=
  { id := i
    status := .Running
    name := n
    image := "img"
    cpu_usage := 0
    memory_usage_bytes := 0
    memory_limit_bytes := 0
    swarm_service := none
    swarm_stack := none
    compose_service := none
    compose_project := none }

/-- A concrete application in Logging mode with needle "err" over the log
buffer of the spec search example (oldest line first). -/
def appC7 : App :=
  { App.new with
      state := .Logging "c1"
      actions := (AppState.Logging "c1").get_actions
      logs := ["ok", "warn", "ERRor", "ok"]
      search := some "err" }

/-- A concrete application in Logging mode with an active (empty) search. -/
def appC8 : App :=
  { App.new with
      state := .Logging "c1"
      actions := (AppState.Logging "c1").get_actions
      search := some "" }

/-- The same application with no active search. -/
def appC8' : App :=
  { appC8 with search := none }

/-- A concrete application in ExecCommand mode with an open exec channel and
the pending command "ls". -/
def appC9 : App :=
  { App.new with
      state := .ExecCommand "c1"
      actions := (AppState.ExecCommand "c1").get_actions
      exec_tx := true
      exec_cmd := "ls"
      logs := ["$ "] }

/-- The application after the SendCMD action transmits "ls\n". -/
def appC9' : App :=
  (appC9.do_state_exec_command_actions .SendCMD).app

/-- C1: the spec requires the computed CPU percentage to be exactly 0 whenever
the system tick delta is zero or negative, including when the current system
ticks are smaller than the previous sample ticks.  At a sample whose current
system ticks (0) are smaller than the previous ones (1), with container tick
delta 100 and one online CPU, the unchecked `u64` subtraction `csu - psu`
wraps to `2 ^ 64 - 1`, the positive-delta branch is taken, and the result is
the positive value `100 / (2 ^ 64 - 1) * 100` rather than 0 (a debug build
aborts on the underflow instead). -/
theorem c1_cpu_underflow_failing_input :
    0 < computeCpuUsage 100 0 (some 0) (some 1) (some 1) ∧
    computeCpuUsage 100 0 (some 0) (some 1) (some 1) =
      100 / (2 ^ 64 - 1) * 100 := by
  constructor
  · norm_num [computeCpuUsage, u64Sub]
  · norm_num [computeCpuUsage, u64Sub]

/-- C2 counterexample: the claim lists `PauseContainer` among the actions
enabled in the Monitoring state, but the registry built by
`AppState::get_actions` for Monitoring does not contain it. -/
theorem c2_pause_not_in_monitoring :
    Action.PauseContainer ∉ AppState.Monitoring.get_actions := by
  decide

/-- C2 amended: the registry of enabled actions for the Monitoring state is
exactly Quit, ShowLogs, ExecCommands, Next, Previous and StopContainer, in
that order — six actions, with PauseContainer absent. -/
theorem c2_monitoring_actions :
    AppState.Monitoring.get_actions =
      [.Quit, .ShowLogs, .ExecCommands, .Next, .Previous, .StopContainer] := by
  decide

/-- C5: `App::add_logs` invoked at scroll position `p > 0` with `n` fetched
lines leaves the position exactly `p + n`, invoked at position 0 leaves it 0,
and in both cases appends the `n` lines in order at the end of the buffer
without touching the existing lines. -/
theorem c5_add_logs_position (app : App) (fetched : List String) :
    (0 < app.log_position →
      (app.add_logs fetched).log_position =
        app.log_position + fetched.length) ∧
    (app.log_position = 0 → (app.add_logs fetched).log_position = 0) ∧
    (app.add_logs fetched).logs = app.logs ++ fetched := by
  refine ⟨fun h => ?_, fun h => ?_, rfl⟩
  · simp only [App.add_logs]
    split
    · rfl
    · omega
  · simp [App.add_logs, h]

/-- C5 witness: at position 2 with two fetched lines the position becomes 4,
and at position 0 it stays 0. -/
theorem c5_add_logs_position_witness :
    ((App.add_logs { App.new with log_position := 2, logs := ["a"] }
        ["x", "y"]).log_position = 2 + 2) ∧
    ((App.add_logs App.new ["x", "y"]).log_position = 0) :=
  ⟨(c5_add_logs_position { App.new with log_position := 2, logs := ["a"] }
      ["x", "y"]).1 (by decide),
   (c5_add_logs_position App.new ["x", "y"]).2.1 (by decide)⟩

/-- C10: `stop_container` issues a daemon stop with a 10 second timeout
exactly when the inspected effective status is Running, force-removes the
container exactly when it is Exited or Created, and performs no daemon
mutation for every other status and for an inspect failure. -/
theorem c10_stop_container_decision
    (inspect : Except String ContainerInspectResponse) :
    (stop_container inspect = .stopContainer 10 ↔
      ∃ c, inspect = .ok c ∧ effectiveStatus c = .RUNNING) ∧
    (stop_container inspect = .removeContainer true ↔
      ∃ c, inspect = .ok c ∧
        (effectiveStatus c = .EXITED ∨ effectiveStatus c = .CREATED)) ∧
    ((∀ c, inspect = .ok c → effectiveStatus c ≠ .RUNNING ∧
        effectiveStatus c ≠ .EXITED ∧ effectiveStatus c ≠ .CREATED) →
      stop_container inspect = .noEffect) := by
  cases inspect with
  | error e => simp [stop_container]
  | ok c => cases heff : effectiveStatus c <;> simp [stop_container, heff]

/-- C10 witness: a running container is stopped with timeout 10, and an
inspect failure performs no daemon mutation. -/
theorem c10_stop_container_decision_witness :
    stop_container (.ok ⟨some ⟨some .RUNNING⟩⟩) = .stopContainer 10 ∧
    stop_container (.error "inspect failed") = .noEffect :=
  ⟨(c10_stop_container_decision (.ok ⟨some ⟨some .RUNNING⟩⟩)).1.mpr
      ⟨⟨some ⟨some .RUNNING⟩⟩, rfl, rfl⟩,
   (c10_stop_container_decision (.error "inspect failed")).2.2
      (fun _ h => nomatch h)⟩

/-- Every key claimed by at least two action occurrences appears, with its
colliding actions, in the conflict listing. -/
theorem mem_conflictListing_of_two_le (actions : List Action) (k : Key)
    (hk : 2 ≤ (collidingActions actions k).length) :
    (k, collidingActions actions k) ∈ conflictListing actions := by
  have hne : collidingActions actions k ≠ [] := by
    intro h
    rw [h] at hk
    simp at hk
  obtain ⟨a, ha⟩ := List.exists_mem_of_ne_nil _ hne
  obtain ⟨haa, hka⟩ := List.mem_filter.mp ha
  apply List.mem_filterMap.mpr
  refine ⟨k, List.mem_dedup.mpr ?_, ?_⟩
  · exact List.mem_flatten.mpr
      ⟨a.keys, List.mem_map.mpr ⟨a, haa, rfl⟩, of_decide_eq_true hka⟩
  · simp only
    rw [if_pos hk]

/-- C3: if any key is claimed by two or more action occurrences of the input
list, `Actions::from` fails and the conflict listing carried by the failure
names every conflicting key together with all the actions colliding on it;
if no key occurring in the input is shared, construction succeeds with the
actions in the given order. -/
theorem c3_registry_conflict_detection (actions : List Action) :
    ((∃ k, 2 ≤ (collidingActions actions k).length) →
      ∃ e, Actions.fromList actions = .error e ∧
        ∀ k, 2 ≤ (collidingActions actions k).length →
          (k, collidingActions actions k) ∈ e) ∧
    ((∀ k ∈ (actions.map Action.keys).flatten,
        (collidingActions actions k).length ≤ 1) →
      Actions.fromList actions = .ok actions) := by
  constructor
  · rintro ⟨k, hk⟩
    have hmem := mem_conflictListing_of_two_le actions k hk
    refine ⟨conflictListing actions, ?_, ?_⟩
    · unfold Actions.fromList
      rw [if_neg (List.ne_nil_of_mem hmem)]
    · intro k' hk'
      exact mem_conflictListing_of_two_le actions k' hk'
  · intro h
    unfold Actions.fromList
    rw [if_pos]
    unfold conflictListing
    apply List.filterMap_eq_nil_iff.mpr
    intro k hk
    have hk' := h k (List.mem_dedup.mp hk)
    simp only
    rw [if_neg (by omega)]

/-- C3 witness: ShowLogs and SendCMD collide on the Enter key and
construction fails naming that conflict, while the conflict-free pair Quit
and ShowLogs builds the registry in order. -/
theorem c3_registry_conflict_detection_witness :
    (∃ e, Actions.fromList [Action.ShowLogs, Action.SendCMD] = .error e ∧
      ∀ k, 2 ≤ (collidingActions [Action.ShowLogs, Action.SendCMD] k).length →
        (k, collidingActions [Action.ShowLogs, Action.SendCMD] k) ∈ e) ∧
    Actions.fromList [Action.Quit, Action.ShowLogs] =
      .ok [Action.Quit, Action.ShowLogs] :=
  ⟨(c3_registry_conflict_detection [Action.ShowLogs, Action.SendCMD]).1
      ⟨Key.Enter, by decide⟩,
   (c3_registry_conflict_detection [Action.Quit, Action.ShowLogs]).2
      (by decide)⟩

/-- A found position is an index into the list. -/
theorem positionFrom_lt_length {α : Type} (pred : α → Bool) :
    ∀ (l : List α) (i : Nat), positionFrom pred l = some i → i < l.length := by
  intro l
  induction l with
  | nil => intro i h; simp [positionFrom] at h
  | cons x t ih =>
    intro i h
    simp only [positionFrom] at h
    split at h
    · cases h
      simp
    · cases hpt : positionFrom pred t with
      | none => rw [hpt] at h; simp at h
      | some j =>
        rw [hpt] at h
        simp only [Option.map_some'] at h
        cases h
        have := ih j hpt
        simp only [List.length_cons]
        omega

/-- C6: the scroll position invariant `position ≤ buffer length` holds
initially (`App::new` starts at 0) and is preserved by every Logging-mode
action (ScrollUp saturates below the buffer length, ScrollDown saturates at
0, Search never advances past the oldest line, Quit clears the buffer and
resets the position) and by `App::add_logs` (which grows the buffer at least
as much as the position). -/
theorem c6_scroll_position_invariant :
    App.new.log_position = 0 ∧
    (∀ (app : App) (a : Action),
      app.log_position ≤ app.logs.length →
        (app.do_state_logging_actions a).app.log_position ≤
          (app.do_state_logging_actions a).app.logs.length) ∧
    (∀ (app : App) (fetched : List String),
      app.log_position ≤ app.logs.length →
        (app.add_logs fetched).log_position ≤
          (app.add_logs fetched).logs.length) := by
  refine ⟨rfl, ?_, ?_⟩
  · intro app a h
    cases a with
    | Quit =>
      simp only [App.do_state_logging_actions]
      split
      · exact h
      · simp
    | ScrollDown =>
      simp only [App.do_state_logging_actions]
      split <;> omega
    | ScrollUp =>
      simp only [App.do_state_logging_actions]
      split <;> omega
    | Search =>
      simp only [App.do_state_logging_actions]
      split
      · split
        · next line heq =>
          have hlt := positionFrom_lt_length _ _ _ heq
          simp only [List.length_drop, List.length_reverse] at hlt
          show app.log_position + line + 1 ≤ app.logs.length
          omega
        · exact h
      · exact h
    | Remove =>
      simp only [App.do_state_logging_actions]
      split
      · exact h
      · exact h
    | ShowLogs => exact h
    | ExecCommands => exact h
    | SendCMD => exact h
    | Next => exact h
    | Previous => exact h
    | StopContainer => exact h
    | PauseContainer => exact h
  · intro app fetched h
    simp only [App.add_logs, List.length_append]
    split <;> omega

/-- C6 witness: the invariant holds at the initial application and is kept by
a concrete ScrollUp on a two-line buffer at position 1. -/
theorem c6_scroll_position_invariant_witness :
    App.new.log_position = 0 ∧
    (App.do_state_logging_actions
        { App.new with logs := ["a", "b"], log_position := 1 }
        Action.ScrollUp).app.log_position ≤
      (App.do_state_logging_actions
        { App.new with logs := ["a", "b"], log_position := 1 }
        Action.ScrollUp).app.logs.length :=
  ⟨c6_scroll_position_invariant.1,
   c6_scroll_position_invariant.2.1
      { App.new with logs := ["a", "b"], log_position := 1 }
      Action.ScrollUp (by decide)⟩

/-- A list position search returns none exactly when no index satisfies the
predicate. -/
theorem positionFrom_eq_none {α : Type} (pred : α → Bool) (d : α) :
    ∀ (l : List α), positionFrom pred l = none ↔
      ∀ i, i < l.length → pred (l.getD i d) = false := by
  intro l
  induction l with
  | nil => simp [positionFrom]
  | cons x t ih =>
    simp only [positionFrom]
    cases hpx : pred x with
    | true =>
      simp only [if_true]
      constructor
      · intro hcontra; exact absurd hcontra (by simp)
      · intro hall
        exfalso
        have h0 := hall 0 (by simp)
        rw [List.getD_cons_zero, hpx] at h0
        exact absurd h0 (by simp)
    | false =>
      simp only [Bool.false_eq_true, if_false]
      rw [Option.map_eq_none', ih]
      constructor
      · intro hall i hi
        cases i with
        | zero => simpa using hpx
        | succ j =>
          rw [List.getD_cons_succ]
          exact hall j (by simpa using hi)
      · intro hall j hj
        have := hall (j + 1) (by simpa using hj)
        simpa using this

/-- A found position satisfies the predicate and every earlier index does
not. -/
theorem positionFrom_eq_some {α : Type} (pred : α → Bool) (d : α) :
    ∀ (l : List α) (i : Nat), positionFrom pred l = some i →
      pred (l.getD i d) = true ∧ ∀ j, j < i → pred (l.getD j d) = false := by
  intro l
  induction l with
  | nil => intro i h; simp [positionFrom] at h
  | cons x t ih =>
    intro i h
    simp only [positionFrom] at h
    cases hpx : pred x with
    | true =>
      rw [hpx] at h
      simp only [if_true, Option.some.injEq] at h
      subst h
      exact ⟨by simpa using hpx, fun j hj => absurd hj (by omega)⟩
    | false =>
      rw [hpx] at h
      simp only [Bool.false_eq_true, if_false, Option.map_eq_some'] at h
      obtain ⟨j, hj, rfl⟩ := h
      obtain ⟨h1, h2⟩ := ih j hj
      refine ⟨by simpa using h1, ?_⟩
      intro k hk
      cases k with
      | zero => simpa using hpx
      | succ m =>
        rw [List.getD_cons_succ]
        exact h2 m (by omega)

/-- C7: in Logging mode with an active needle, the Search action scans
backward from just past the current scroll position; when some line beyond
the position matches case-insensitively, the position advances exactly to the
reverse offset of the nearest such line, and when none matches the position
is unchanged. -/
theorem c7_search_advances (app : App) (s : String)
    (hmode : app.state.is_logging = true) (hs : app.search = some s) :
    ((∀ r, app.log_position < r → r < app.logs.length →
        ¬ logMatchesAt app s r) →
      (app.do_state_logging_actions .Search).app.log_position =
        app.log_position) ∧
    ((∃ r, app.log_position < r ∧ r < app.logs.length ∧ logMatchesAt app s r) →
      app.log_position <
        (app.do_state_logging_actions .Search).app.log_position ∧
      (app.do_state_logging_actions .Search).app.log_position <
        app.logs.length ∧
      logMatchesAt app s
        ((app.do_state_logging_actions .Search).app.log_position) ∧
      (∀ r, app.log_position < r →
        r < (app.do_state_logging_actions .Search).app.log_position →
        ¬ logMatchesAt app s r)) := by
  have hgetD : ∀ i, (app.logs.reverse.drop (app.log_position + 1)).getD i "" =
      app.logs.reverse.getD (app.log_position + 1 + i) "" := by
    intro i
    simp [List.getD_eq_getElem?_getD, List.getElem?_drop]
  have hlen : (app.logs.reverse.drop (app.log_position + 1)).length =
      app.logs.length - (app.log_position + 1) := by
    simp [List.length_drop, List.length_reverse]
  cases hp : positionFrom (lineMatches s)
      (app.logs.reverse.drop (app.log_position + 1)) with
  | none =>
    have hres : (app.do_state_logging_actions .Search).app.log_position =
        app.log_position := by
      simp [App.do_state_logging_actions, hs, hp]
    constructor
    · intro _
      exact hres
    · rintro ⟨r, hr1, hr2, hr3⟩
      exfalso
      have hnone := (positionFrom_eq_none (lineMatches s) "" _).mp hp
      have hi : r - (app.log_position + 1) <
          (app.logs.reverse.drop (app.log_position + 1)).length := by
        rw [hlen]
        omega
      have hfalse := hnone _ hi
      rw [hgetD] at hfalse
      have heq : app.log_position + 1 + (r - (app.log_position + 1)) = r := by
        omega
      rw [heq] at hfalse
      unfold logMatchesAt at hr3
      rw [hfalse] at hr3
      exact absurd hr3 (by simp)
  | some line =>
    have hres : (app.do_state_logging_actions .Search).app.log_position =
        app.log_position + line + 1 := by
      simp [App.do_state_logging_actions, hs, hp]
    have hlt := positionFrom_lt_length _ _ _ hp
    rw [hlen] at hlt
    obtain ⟨hmatch, hbefore⟩ := positionFrom_eq_some (lineMatches s) "" _ _ hp
    rw [hgetD] at hmatch
    have hkey : app.log_position + 1 + line = app.log_position + line + 1 := by
      omega
    rw [hkey] at hmatch
    have hnew : logMatchesAt app s (app.log_position + line + 1) := hmatch
    constructor
    · intro hno
      exact absurd hnew (hno (app.log_position + line + 1) (by omega) (by omega))
    · intro _
      rw [hres]
      refine ⟨by omega, by omega, hnew, ?_⟩
      intro r hr1 hr2
      have hk : r - (app.log_position + 1) < line := by omega
      have hfalse := hbefore _ hk
      rw [hgetD] at hfalse
      have heq : app.log_position + 1 + (r - (app.log_position + 1)) = r := by
        omega
      rw [heq] at hfalse
      intro hcontra
      unfold logMatchesAt at hcontra
      rw [hfalse] at hcontra
      exact absurd hcontra (by simp)

/-- C7 witness: over the buffer ["ok","warn","ERRor","ok"] (oldest first)
with needle "err" from position 0, Search advances to a positive offset
below the buffer length whose line matches case-insensitively (the line
"ERRor" at reverse offset 1). -/
theorem c7_search_advances_witness :
    0 < (appC7.do_state_logging_actions .Search).app.log_position ∧
    (appC7.do_state_logging_actions .Search).app.log_position <
      appC7.logs.length ∧
    logMatchesAt appC7 "err"
      ((appC7.do_state_logging_actions .Search).app.log_position) :=
  have h := (c7_search_advances appC7 "err" (by decide) rfl).2
    ⟨1, by decide, by decide, by unfold logMatchesAt; decide⟩
  ⟨h.1, h.2.1, h.2.2.1⟩

/-- C8 counterexample: the character key q is bound to Quit, yet with an
active search `App::do_action` captures it as search input and appends it to
the needle instead of clearing the search. -/
theorem c8_quit_key_appends_to_needle :
    Key.Char 'q' ∈ Action.Quit.keys ∧
    (appC8.do_action (Key.Char 'q')).app.search = some "q" ∧
    (appC8.do_action (Key.Char 'q')).app.state = appC8.state := by
  refine ⟨by decide, by decide, by decide⟩

/-- C8 amended: in Logging mode, a non-character Quit key (Ctrl-C or Esc)
handled while a search is active clears only the needle, a character Quit key
(q) is captured into the needle instead, and any Quit key handled with no
active search switches to Monitoring, clears the log buffer, resets the
scroll position to 0 and dispatches StartMonitoring. -/
theorem c8_logging_quit_keys (app : App) (k : Key) (cid : String)
    (hstate : app.state = .Logging cid)
    (hact : app.actions = (AppState.Logging cid).get_actions)
    (hk : k ∈ Action.Quit.keys) :
    (∀ s, app.search = some s → k.get_char = none →
      app.do_action k = ⟨{ app with search := none }, [], [], .Continue⟩) ∧
    (∀ s c, app.search = some s → k.get_char = some c →
      app.do_action k =
        ⟨{ app with search := some (s.push c) }, [], [], .Continue⟩) ∧
    (app.search = none →
      app.do_action k =
        ⟨{ app with state := .Monitoring,
                    logs := [],
                    log_position := 0,
                    actions := AppState.Monitoring.get_actions },
         [.StartMonitoring], [], .Continue⟩) := by
  fin_cases hk
  · refine ⟨fun s hs hchar => by simp [Key.get_char] at hchar,
            fun s c hs hchar => ?_, fun hs => ?_⟩
    · injection hchar with hc
      subst hc
      simp [App.do_action, hs, Key.get_char]
    · have hfind : Actions.find ((AppState.Logging cid).get_actions)
          (Key.Char 'q') = some Action.Quit := rfl
      simp [App.do_action, App.findAndDo, hs, hstate, hact, hfind,
            Key.get_char, AppState.is_exec_command, AppState.is_monitoring,
            AppState.is_logging, App.do_state_logging_actions]
  · refine ⟨fun s hs hchar => ?_,
            fun s c hs hchar => by simp [Key.get_char] at hchar,
            fun hs => ?_⟩
    · have hfind : Actions.find ((AppState.Logging cid).get_actions)
          (Key.Ctrl 'c') = some Action.Quit := rfl
      simp [App.do_action, App.findAndDo, hs, hstate, hact, hfind,
            Key.get_char, AppState.is_exec_command, AppState.is_monitoring,
            AppState.is_logging, App.do_state_logging_actions]
    · have hfind : Actions.find ((AppState.Logging cid).get_actions)
          (Key.Ctrl 'c') = some Action.Quit := rfl
      simp [App.do_action, App.findAndDo, hs, hstate, hact, hfind,
            Key.get_char, AppState.is_exec_command, AppState.is_monitoring,
            AppState.is_logging, App.do_state_logging_actions]
  · refine ⟨fun s hs hchar => ?_,
            fun s c hs hchar => by simp [Key.get_char] at hchar,
            fun hs => ?_⟩
    · have hfind : Actions.find ((AppState.Logging cid).get_actions)
          Key.Esc = some Action.Quit := rfl
      simp [App.do_action, App.findAndDo, hs, hstate, hact, hfind,
            Key.get_char, AppState.is_exec_command, AppState.is_monitoring,
            AppState.is_logging, App.do_state_logging_actions]
    · have hfind : Actions.find ((AppState.Logging cid).get_actions)
          Key.Esc = some Action.Quit := rfl
      simp [App.do_action, App.findAndDo, hs, hstate, hact, hfind,
            Key.get_char, AppState.is_exec_command, AppState.is_monitoring,
            AppState.is_logging, App.do_state_logging_actions]

/-- C8 witness: Esc with an active empty needle clears only the search, and q
with no active search performs the full Logging-to-Monitoring transition. -/
theorem c8_logging_quit_keys_witness :
    appC8.do_action Key.Esc =
      ⟨{ appC8 with search := none }, [], [], .Continue⟩ ∧
    appC8'.do_action (Key.Char 'q') =
      ⟨{ appC8' with state := .Monitoring,
                     logs := [],
                     log_position := 0,
                     actions := AppState.Monitoring.get_actions },
       [.StartMonitoring], [], .Continue⟩ :=
  ⟨(c8_logging_quit_keys appC8 Key.Esc "c1" rfl rfl (by decide)).1 "" rfl rfl,
   (c8_logging_quit_keys appC8' (Key.Char 'q') "c1" rfl rfl
      (by decide)).2.2 rfl⟩

/-- C9: `App::add_tty_output` on the literal text "exit" returns the
application to Monitoring with the log buffer and scroll position cleared;
otherwise, in ExecCommand mode, output whose trimmed text equals the trimmed
last-sent command is discarded once and the marker cleared, and any other
output is appended verbatim to the log buffer. -/
theorem c9_add_tty_output (app : App) (output : String) :
    (output = "exit" →
      app.add_tty_output output =
        { app with state := .Monitoring,
                   actions := AppState.Monitoring.get_actions,
                   logs := [],
                   log_position := 0 }) ∧
    (∀ cmd, output ≠ "exit" → app.state.is_exec_command = true →
      app.last_cmd = some cmd → strTrim output = strTrim cmd →
      app.add_tty_output output = { app with last_cmd := none }) ∧
    (output ≠ "exit" → app.state.is_exec_command = true →
      (∀ cmd, app.last_cmd = some cmd → strTrim output ≠ strTrim cmd) →
      app.add_tty_output output =
        { app with logs := app.logs ++ [output] }) := by
  refine ⟨fun h => ?_, fun cmd h hx hl ht => ?_, fun h hx hno => ?_⟩
  · simp [App.add_tty_output, h]
  · simp [App.add_tty_output, h, hx, hl, ht]
  · cases hl : app.last_cmd with
    | none => simp [App.add_tty_output, h, hx, hl]
    | some cmd => simp [App.add_tty_output, h, hx, hl, hno cmd hl]

/-- C9 witness: after SendCMD transmits "ls\n", the received echo "ls" is
suppressed once (the marker clears, the buffer is untouched), and a
subsequent unrelated line "hello" is appended normally. -/
theorem c9_add_tty_output_witness :
    appC9'.last_cmd = some "ls\n" ∧
    appC9'.add_tty_output "ls" = { appC9' with last_cmd := none } ∧
    (appC9'.add_tty_output "ls").add_tty_output "hello" =
      { appC9'.add_tty_output "ls" with
          logs := (appC9'.add_tty_output "ls").logs ++ ["hello"] } :=
  ⟨by decide,
   (c9_add_tty_output appC9' "ls").2.1 "ls\n" (by decide) (by decide)
      (by decide) (by decide),
   (c9_add_tty_output (appC9'.add_tty_output "ls") "hello").2.2 (by decide)
      (by decide)
      (by
        intro cmd hcmd
        have hnone : (appC9'.add_tty_output "ls").last_cmd = none := by decide
        rw [hnone] at hcmd
        exact absurd hcmd (by simp))⟩

/-- An id occurs after an upsert exactly when it is the new id or occurred
before. -/
theorem mem_ids_update (cs : List Container) (nc : Container) (x : String) :
    x ∈ (update_containers cs nc).map Container.id ↔
      x = nc.id ∨ x ∈ cs.map Container.id := by
  unfold update_containers
  simp only [List.mem_map]
  constructor
  · rintro ⟨c, hc, rfl⟩
    rcases List.mem_append.mp (List.mem_mergeSort.mp hc) with h | h
    · exact Or.inr ⟨c, (List.mem_filter.mp h).1, rfl⟩
    · simp at h
      subst h
      exact Or.inl rfl
  · rintro (rfl | ⟨c, hc, rfl⟩)
    · exact ⟨nc, List.mem_mergeSort.mpr (List.mem_append.mpr (Or.inr (by simp))),
        rfl⟩
    · by_cases hid : c.id = nc.id
      · exact ⟨nc, List.mem_mergeSort.mpr (List.mem_append.mpr (Or.inr (by simp))),
          hid.symm⟩
      · exact ⟨c, List.mem_mergeSort.mpr (List.mem_append.mpr (Or.inl
          (List.mem_filter.mpr ⟨hc, decide_eq_true hid⟩))), rfl⟩

/-- An id occurs after a batch of upserts exactly when some upserted record
carries it or it occurred before. -/
theorem mem_ids_foldl_update (l : List Container) (acc : List Container)
    (x : String) :
    x ∈ ((l.foldl update_containers acc).map Container.id) ↔
      x ∈ l.map Container.id ∨ x ∈ acc.map Container.id := by
  induction l generalizing acc with
  | nil => simp
  | cons c t ih =>
    rw [List.foldl_cons, ih, mem_ids_update]
    simp only [List.map_cons, List.mem_cons]
    tauto

/-- An id survives a removal exactly when it occurred before and differs from
the removed id. -/
theorem mem_ids_remove (cs : List Container) (j x : String) :
    x ∈ (remove_container cs j).map Container.id ↔
      x ∈ cs.map Container.id ∧ x ≠ j := by
  unfold remove_container
  simp only [List.mem_map]
  constructor
  · rintro ⟨c, hc, rfl⟩
    obtain ⟨h1, h2⟩ := List.mem_filter.mp hc
    exact ⟨⟨c, h1, rfl⟩, of_decide_eq_true h2⟩
  · rintro ⟨⟨c, hc, rfl⟩, hne⟩
    exact ⟨c, List.mem_filter.mpr ⟨hc, decide_eq_true hne⟩, rfl⟩

/-- An id survives a batch of removals exactly when it occurred before and is
not among the removed ids. -/
theorem mem_ids_foldl_remove (l : List String) (acc : List Container)
    (x : String) :
    x ∈ ((l.foldl remove_container acc).map Container.id) ↔
      x ∈ acc.map Container.id ∧ x ∉ l := by
  induction l generalizing acc with
  | nil => simp
  | cons j t ih =>
    rw [List.foldl_cons, ih, mem_ids_remove]
    simp only [List.mem_cons]
    tauto

/-- An upsert preserves uniqueness of the stored ids. -/
theorem nodup_ids_update (cs : List Container) (nc : Container)
    (h : (cs.map Container.id).Nodup) :
    ((update_containers cs nc).map Container.id).Nodup := by
  unfold update_containers
  have hperm := (List.mergeSort_perm
    ((cs.filter fun c => decide (c.id ≠ nc.id)) ++ [nc]) nameLe).map
      Container.id
  rw [hperm.nodup_iff, List.map_append, List.nodup_append]
  refine ⟨((List.filter_sublist cs).map Container.id).nodup h, by simp, ?_⟩
  intro a ha hb
  obtain ⟨c, hc, rfl⟩ := List.mem_map.mp ha
  have hne := of_decide_eq_true (List.mem_filter.mp hc).2
  simp at hb
  exact hne hb

/-- A batch of upserts preserves uniqueness of the stored ids. -/
theorem nodup_ids_foldl_update (l : List Container) (acc : List Container)
    (h : (acc.map Container.id).Nodup) :
    (((l.foldl update_containers acc)).map Container.id).Nodup := by
  induction l generalizing acc with
  | nil => simpa using h
  | cons c t ih => exact ih _ (nodup_ids_update _ _ h)

/-- A batch of removals preserves uniqueness of the stored ids. -/
theorem nodup_ids_foldl_remove (l : List String) (acc : List Container)
    (h : (acc.map Container.id).Nodup) :
    (((l.foldl remove_container acc)).map Container.id).Nodup := by
  induction l generalizing acc with
  | nil => simpa using h
  | cons j t ih =>
    exact ih _ (((List.filter_sublist acc).map Container.id).nodup h)

/-- An upsert leaves the collection sorted by name. -/
theorem sorted_update_containers (cs : List Container) (nc : Container) :
    List.Sorted (fun a b : Container => a.name ≤ b.name)
      (update_containers cs nc) := by
  unfold update_containers
  have htrans : ∀ a b c : Container,
      nameLe a b = true → nameLe b c = true → nameLe a c = true := by
    intro a b c hab hbc
    simp only [nameLe, decide_eq_true_eq] at hab hbc ⊢
    exact le_trans hab hbc
  have htotal : ∀ a b : Container, (nameLe a b || nameLe b a) = true := by
    intro a b
    simp only [nameLe, Bool.or_eq_true, decide_eq_true_eq]
    exact le_total a.name b.name
  have hs := List.sorted_mergeSort htrans htotal
    ((cs.filter fun c => decide (c.id ≠ nc.id)) ++ [nc])
  exact hs.imp (fun hab => of_decide_eq_true hab)

/-- C4: in a reconciliation cycle, every previously known id absent from the
new daemon listing is removed from the collection (the diff is computed from
the full listing before any refresh runs, so a listed container whose refresh
fails is retained), every refreshed record ends up present — hence, in a
cycle where every listed container's refresh completes, every listed id ends
up present — id uniqueness is preserved (each upsert removes the old entry
with the same id before inserting), and every upsert leaves the collection
sorted by name.  The hypothesis that each refreshed record id is a listed id
holds by construction in the source: `update_container` takes its id from the
listed summary. -/
theorem c4_reconcile_cycle (alive container_ids : List String)
    (refreshed cs : List Container)
    (href : ∀ c ∈ refreshed, c.id ∈ container_ids) :
    (∀ i, i ∈ alive → i ∉ container_ids →
      i ∉ (reconcileCycle alive container_ids refreshed cs).map
        Container.id) ∧
    (∀ c, c ∈ refreshed →
      c.id ∈ (reconcileCycle alive container_ids refreshed cs).map
        Container.id) ∧
    ((∀ i ∈ container_ids, i ∈ refreshed.map Container.id) →
      ∀ i ∈ container_ids,
        i ∈ (reconcileCycle alive container_ids refreshed cs).map
          Container.id) ∧
    ((cs.map Container.id).Nodup →
      ((reconcileCycle alive container_ids refreshed cs).map
        Container.id).Nodup) ∧
    (∀ (cs' : List Container) (nc : Container),
      nc ∈ update_containers cs' nc ∧
      (∀ c, c ∈ update_containers cs' nc → c.id = nc.id → c = nc) ∧
      List.Sorted (fun a b : Container => a.name ≤ b.name)
        (update_containers cs' nc)) := by
  have hpresent : ∀ c, c ∈ refreshed →
      c.id ∈ (reconcileCycle alive container_ids refreshed cs).map
        Container.id := by
    intro c hc
    simp only [reconcileCycle]
    rw [mem_ids_foldl_update]
    exact Or.inl (List.mem_map.mpr ⟨c, hc, rfl⟩)
  refine ⟨?_, hpresent, ?_, ?_, ?_⟩
  · intro i hi hnot
    simp only [reconcileCycle]
    rw [mem_ids_foldl_update]
    rintro (h | h)
    · obtain ⟨c, hc, hci⟩ := List.mem_map.mp h
      exact hnot (hci ▸ href c hc)
    · rw [mem_ids_foldl_remove] at h
      exact h.2 (List.mem_filter.mpr ⟨hi, decide_eq_true hnot⟩)
  · intro hcomplete i hi
    obtain ⟨c, hc, hci⟩ := List.mem_map.mp (hcomplete i hi)
    exact hci ▸ hpresent c hc
  · intro h
    simp only [reconcileCycle]
    exact nodup_ids_foldl_update _ _ (nodup_ids_foldl_remove _ _ h)
  · intro cs' nc
    refine ⟨?_, ?_, sorted_update_containers cs' nc⟩
    · unfold update_containers
      exact List.mem_mergeSort.mpr (List.mem_append.mpr (Or.inr (by simp)))
    · intro c hc hid
      unfold update_containers at hc
      rcases List.mem_append.mp (List.mem_mergeSort.mp hc) with h | h
      · exact absurd hid (of_decide_eq_true (List.mem_filter.mp h).2)
      · simpa using h

/-- C4 witness: with previous ids A, B, C and a full listing B, C, D whose
three refreshes all complete, the cycle removes A, the refreshed record D is
present, and the listed id B is present. -/
theorem c4_reconcile_cycle_witness :
    "A" ∉ (reconcileCycle ["A", "B", "C"] ["B", "C", "D"]
        [mkC "B" "nb", mkC "C" "nc", mkC "D" "nd"]
        [mkC "A" "na", mkC "B" "nb", mkC "C" "nc"]).map Container.id ∧
    (mkC "D" "nd").id ∈ (reconcileCycle ["A", "B", "C"] ["B", "C", "D"]
        [mkC "B" "nb", mkC "C" "nc", mkC "D" "nd"]
        [mkC "A" "na", mkC "B" "nb", mkC "C" "nc"]).map Container.id ∧
    "B" ∈ (reconcileCycle ["A", "B", "C"] ["B", "C", "D"]
        [mkC "B" "nb", mkC "C" "nc", mkC "D" "nd"]
        [mkC "A" "na", mkC "B" "nb", mkC "C" "nc"]).map Container.id :=
  ⟨(c4_reconcile_cycle ["A", "B", "C"] ["B", "C", "D"]
        [mkC "B" "nb", mkC "C" "nc", mkC "D" "nd"]
        [mkC "A" "na", mkC "B" "nb", mkC "C" "nc"] (by decide)).1 "A"
      (by decide) (by decide),
   (c4_reconcile_cycle ["A", "B", "C"] ["B", "C", "D"]
        [mkC "B" "nb", mkC "C" "nc", mkC "D" "nd"]
        [mkC "A" "na", mkC "B" "nb", mkC "C" "nc"] (by decide)).2.1
      (mkC "D" "nd") (by decide),
   (c4_reconcile_cycle ["A", "B", "C"] ["B", "C", "D"]
        [mkC "B" "nb", mkC "C" "nc", mkC "D" "nd"]
        [mkC "A" "na", mkC "B" "nb", mkC "C" "nc"] (by decide)).2.2.1
      (by decide) "B" (by decide)⟩

end Bctop
